import Mathlib

/-!
Verification of the taichi-splatting tile-based differentiable rasterizer:
the backward gradient kernel (rasterizer/backward.py), its configuration
record, and the host-side padding/cropping (renderer2d.py), shallowly
embedded over exact rationals.  Machine floats are idealised as ℚ; the
properties verified here are structural (order of operations, skipping,
accumulation, paging, padding arithmetic) and do not depend on rounding.
The 2D-Gaussian density evaluator conic_pdf_with_grad lives in a module
outside the embedded sources and is treated as an abstract parameter
(a function returning the density and its derivatives w.r.t. mean and
conic parameters).
-/

set_option maxHeartbeats 1000000

abbrev Vec2 := Fin 2 → ℚ
abbrev Vec3 := Fin 3 → ℚ
abbrev Vec6 := Fin 6 → ℚ

def vzero2 : Vec2 := fun _ => 0
def vzero3 : Vec3 := fun _ => 0
def vzero6 : Vec6 := fun _ => 0

/-- rasterizer/backward.py lines 11–16: the frozen Config dataclass.  The
float literals 0.99, 1/255 and 0.9999 are idealised as exact rationals.
The dataclass body performs no validation of the field values. -/
structure Config where
  tile_size : ℕ := 16
  clamp_max_alpha : ℚ := 99/100
  alpha_threshold : ℚ := 1/255
  saturate_threshold : ℚ := 9999/10000
  deriving DecidableEq

/-- Modelled from the spec: the packed per-primitive record of
data_types.Gaussian2D (a module outside the embedded sources) is
{mean(2), conic(3), opacity(1)} in a fixed-size 6-vector. -/
def Gaussian2D.pack (uv : Vec2) (uv_conic : Vec3) (alpha : ℚ) : Vec6 :=
  fun k =>
    if h : k.val < 2 then uv ⟨k.val, h⟩
    else if h2 : k.val < 5 then uv_conic ⟨k.val - 2, by omega⟩
    else alpha

/-- Modelled from the spec: inverse of Gaussian2D.pack, splitting the packed
6-vector into mean (2), conic (3) and opacity (1). -/
def Gaussian2D.unpack (v : Vec6) : Vec2 × Vec3 × ℚ :=
  (fun i => v ⟨i.val, by omega⟩, fun i => v ⟨i.val + 2, by omega⟩, v 5)

/-- Abstract interface of ti.covariance.conic_pdf_with_grad (a module outside
the embedded sources): given the pixel centre, the Gaussian mean and the
conic parameters, return the density and its derivatives w.r.t. mean and
conic. -/
abbrev PdfGrad := Vec2 → Vec2 → Vec3 → ℚ × Vec2 × Vec3

/-- Atomic accumulation into a gradient buffer entry:
`buf[i] += d` (read–add–write), a no-op when `i` is out of range. -/
def accumAt {α : Type} [Add α] (buf : List α) (i : ℕ) (d z : α) : List α :=
  buf.set i (buf.getD i z + d)

/-- Per-pixel mutable state of the backward walk: the running transmittance
`T_i`, the suffix weighted feature sum `w_i` (declared as a 3-vector,
`ti.math.vec3(0.0)`, in the source), and the two global gradient buffers
(one packed 6-vector per primitive, one feature 3-vector per primitive). -/
structure BackwardState where
  T_i : ℚ
  w_i : Vec3
  grad_points : List Vec6
  grad_point_features : List Vec3
  deriving DecidableEq

/-- Per-primitive body of the backward kernel, rasterizer/backward.py lines
115–150: unpack the primitive, evaluate density and its derivatives,
recompute alpha, skip below the threshold, clamp, un-divide the running
transmittance, form the alpha gradient from the feature residual dotted
with the incoming pixel gradient, update the suffix sum, and accumulate
into the two gradient buffers. -/
def processPoint (cfg : Config) (pdfg : PdfGrad) (pixelCenter : Vec2)
    (grad_pixel_feature : Vec3) (point : Vec6) (feature : Vec3)
    (point_offset : ℕ) (s : BackwardState) : BackwardState :=
  let u := Gaussian2D.unpack point
  let uv := u.1
  let uv_conic := u.2.1
  let point_alpha := u.2.2
  let pg := pdfg pixelCenter uv uv_conic
  let gaussian_alpha := pg.1
  let dp_dmean := pg.2.1
  let dp_dconic := pg.2.2
  let alpha0 := point_alpha * gaussian_alpha
  if alpha0 < cfg.alpha_threshold then s
  else
    let alpha := min alpha0 cfg.clamp_max_alpha
    let T_i := s.T_i / (1 - alpha)
    let alpha_grad_from_feature : Vec3 := fun i =>
      (feature i * T_i - s.w_i i / (1 - alpha)) * grad_pixel_feature i
    let w_i : Vec3 := fun i => s.w_i i + feature i * alpha * T_i
    let alpha_grad : ℚ := ∑ i, alpha_grad_from_feature i
    let point_grad_feature : Vec3 := fun i => alpha * T_i * grad_pixel_feature i
    { T_i := T_i
      w_i := w_i
      grad_points := accumAt s.grad_points point_offset
        (fun k => alpha_grad * Gaussian2D.pack
          (fun i => point_alpha * dp_dmean i)
          (fun i => point_alpha * dp_dconic i) gaussian_alpha k) vzero6
      grad_point_features :=
        accumAt s.grad_point_features point_offset point_grad_feature vzero3 }

/-- Per-pixel state of the forward compositing walk: accumulated feature and
running transmittance. -/
structure ForwardState where
  accum : Vec3
  T : ℚ
  deriving DecidableEq

/-- Modelled from the spec: the per-primitive step of the forward
compositing pass (forward.py is outside the embedded sources).  Spec §4.2:
evaluate the density at the pixel centre, form raw alpha = opacity *
density, skip when it is below alpha_threshold, clamp with clamp_max_alpha,
then composite `C += feature * a * T` and `T *= (1 - a)`. -/
def forwardPoint (cfg : Config) (pdfg : PdfGrad) (pixelCenter : Vec2)
    (uv : Vec2) (uv_conic : Vec3) (point_alpha : ℚ) (feature : Vec3)
    (s : ForwardState) : ForwardState :=
  let a_raw := point_alpha * (pdfg pixelCenter uv uv_conic).1
  if a_raw < cfg.alpha_threshold then s
  else
    let a := min a_raw cfg.clamp_max_alpha
    { accum := fun i => s.accum i + feature i * a * s.T
      T := s.T * (1 - a) }

/-- Read-only per-call inputs of the backward kernel: the primitive array,
the feature array, and the depth-sorted overlap list mapping list entries
to primitive indices. -/
structure KernelInput where
  points : List Vec6
  point_features : List Vec3
  overlap_to_point : List ℕ
  deriving DecidableEq

/-- Fetch a primitive's packed shape vector and feature vector from the
global arrays (lines 100–101 / 115–116 read these, via shared memory). -/
def pointData (inp : KernelInput) (point_idx : ℕ) : Vec6 × Vec3 :=
  (inp.points.getD point_idx vzero6, inp.point_features.getD point_idx vzero3)

/-- One iteration of the backward walk at a given list index,
rasterizer/backward.py lines 111–150: skip when the index is at or beyond
the pixel's saved last_valid index, otherwise run the per-primitive body on
the primitive the overlap list maps that index to. -/
def stepAtIndex (cfg : Config) (pdfg : PdfGrad) (inp : KernelInput)
    (pixelCenter : Vec2) (grad_pixel_feature : Vec3) (last_point_idx : ℕ)
    (s : BackwardState) (point_index : ℕ) : BackwardState :=
  if last_point_idx ≤ point_index then s
  else
    let point_idx := inp.overlap_to_point.getD point_index 0
    let d := pointData inp point_idx
    processPoint cfg pdfg pixelCenter grad_pixel_feature d.1 d.2 point_idx s

/-- The list indices visited by the backward walk, in visiting order:
`endOff - 1, endOff - 2, ...` for `count` entries (back-to-front). -/
def walkIndices (endOff count : ℕ) : List ℕ :=
  (List.range count).map (fun k => endOff - k - 1)

/-- The backward walk of one pixel over its tile range `[startOff, endOff)`,
flattened to a single back-to-front pass (the paged form below is proved
equivalent). -/
def straightWalk (cfg : Config) (pdfg : PdfGrad) (inp : KernelInput)
    (pixelCenter : Vec2) (grad_pixel_feature : Vec3) (last_point_idx : ℕ)
    (startOff endOff : ℕ) (s0 : BackwardState) : BackwardState :=
  (walkIndices endOff (endOff - startOff)).foldl
    (stepAtIndex cfg pdfg inp pixelCenter grad_pixel_feature last_point_idx) s0

/-- rasterizer/backward.py line 87: number of fixed-size pages
(`num_point_groups`) used to traverse a tile range of length `count`. -/
def numPointGroups (tileArea count : ℕ) : ℕ := (count + (tileArea - 1)) / tileArea

/-- rasterizer/backward.py lines 105–106: number of entries consumed from
page `g` (`point_group_size`). -/
def pointGroupSize (tileArea count g : ℕ) : ℕ := min tileArea (count - g * tileArea)

/-- The list indices consumed from page `g`, in consuming order
(line 111: `point_index = end_offset - point_group_offset - 1`). -/
def pageIndices (endOff tileArea count g : ℕ) : List ℕ :=
  (List.range (pointGroupSize tileArea count g)).map
    (fun j => endOff - (g * tileArea + j) - 1)

/-- Contents of shared-memory slot `slot` after the collective load of one
page, rasterizer/backward.py lines 96–101: the task with thread id `slot`
loads the overlap-list entry at `load_index = block_end_idx - slot - 1`
provided `load_index ≥ block_start_idx`; otherwise the slot is not written
for this page.  (ℕ subtraction encodes the `ti.max(..., 0)` of line 94.) -/
def sharedSlot (inp : KernelInput) (blockEnd blockStart slot : ℕ) :
    Option (Vec6 × Vec3) :=
  if blockStart + slot + 1 ≤ blockEnd then
    some (pointData inp (inp.overlap_to_point.getD (blockEnd - slot - 1) 0))
  else none

/-- One consuming iteration of the paged walk, rasterizer/backward.py lines
108–150: recompute the global list index from the page id and in-page
index, apply the last_valid guard, then read the primitive data from the
shared-memory slot (an unloaded slot yields the zero default, modelling a
garbage read; the equivalence proof shows consumed slots are always
loaded) and run the per-primitive body. -/
def consumeStep (cfg : Config) (pdfg : PdfGrad) (inp : KernelInput)
    (pixelCenter : Vec2) (grad_pixel_feature : Vec3) (last_point_idx : ℕ)
    (endOff tileArea g : ℕ) (s : BackwardState) (j : ℕ) : BackwardState :=
  let blockEnd := endOff - g * tileArea
  let blockStart := blockEnd - tileArea
  let point_index := endOff - (g * tileArea + j) - 1
  if last_point_idx ≤ point_index then s
  else
    let d := (sharedSlot inp blockEnd blockStart j).getD (vzero6, vzero3)
    processPoint cfg pdfg pixelCenter grad_pixel_feature d.1 d.2
      (inp.overlap_to_point.getD point_index 0) s

/-- The paged backward walk of one pixel, rasterizer/backward.py lines
87–153: the tile range is processed in `num_point_groups` fixed-size pages;
each page is loaded collectively into shared memory and then consumed
entry by entry. -/
def pagedWalk (cfg : Config) (pdfg : PdfGrad) (inp : KernelInput)
    (pixelCenter : Vec2) (grad_pixel_feature : Vec3) (last_point_idx : ℕ)
    (startOff endOff tileArea : ℕ) (s0 : BackwardState) : BackwardState :=
  let count := endOff - startOff
  (List.range (numPointGroups tileArea count)).foldl
    (fun s g =>
      (List.range (pointGroupSize tileArea count g)).foldl
        (consumeStep cfg pdfg inp pixelCenter grad_pixel_feature
          last_point_idx endOff tileArea g) s) s0

/-- Per-pixel saved forward state as stored in the image buffers
(image_feature, image_alpha, image_last_valid). -/
structure PixelSaved where
  image_feature : Vec3
  image_alpha : ℚ
  image_last_valid : ℕ
  deriving DecidableEq

/-- The whole per-pixel backward computation, rasterizer/backward.py lines
62–159: read last_valid and the accumulated alpha, initialise the reverse
transmittance `T_i = 1 - accumulated_alpha`, the suffix sum `w_i = 0` and
`accum_feature = 0` (never updated afterwards), run the walk over the
tile range, then write back accum_feature, `1 - T_i` and last_valid into
the three image buffers.  Returns the written pixel state and the updated
gradient buffers. -/
def backwardPixel (cfg : Config) (pdfg : PdfGrad) (inp : KernelInput)
    (pixelCenter : Vec2) (startOff endOff : ℕ) (saved : PixelSaved)
    (grad_pixel_feature : Vec3) (grad_points : List Vec6)
    (grad_point_features : List Vec3) :
    PixelSaved × List Vec6 × List Vec3 :=
  let last_point_idx := saved.image_last_valid
  let accum_feature : Vec3 := vzero3
  let T0 : ℚ := 1 - saved.image_alpha
  let s0 : BackwardState :=
    { T_i := T0, w_i := vzero3, grad_points := grad_points
      grad_point_features := grad_point_features }
  let s := straightWalk cfg pdfg inp pixelCenter grad_pixel_feature
    last_point_idx startOff endOff s0
  ({ image_feature := accum_feature
     image_alpha := 1 - s.T_i
     image_last_valid := last_point_idx },
   s.grad_points, s.grad_point_features)

/-- renderer2d.py lines 27–28: pad one image dimension up to a multiple of
the tile size (`int(math.ceil(x / tile_size) * tile_size)`, exact ceiling
division over ℕ). -/
def pad (tile_size x : ℕ) : ℕ := ((x + tile_size - 1) / tile_size) * tile_size

/-- renderer2d.py lines 26–30: pad both image dimensions to tile multiples. -/
def pad_to_tile (image_size : ℕ × ℕ) (tile_size : ℕ) : ℕ × ℕ :=
  (pad tile_size image_size.1, pad tile_size image_size.2)

/-- renderer2d.py lines 32–53: render at the padded size and crop back, with
the projection / tile-mapping / rasterization pipeline abstracted as a
function `raster` from the (padded) image size to a row-major image
(`image[:h, :w]` keeps the first h rows and first w columns, where
`image_size = (w, h)`). -/
def render_gaussians (raster : ℕ × ℕ → List (List Vec3))
    (image_size : ℕ × ℕ) (tile_size : ℕ) : List (List Vec3) :=
  let padded := pad_to_tile image_size tile_size
  let image := raster padded
  (image.take image_size.2).map (fun row => row.take image_size.1)

/-- Elementwise combination of two vectors represented as lists, defined
only when the lengths agree — the shape discipline a taichi vector binary
operation enforces at kernel compile time. -/
def vzip (f : ℚ → ℚ → ℚ) : List ℚ → List ℚ → Option (List ℚ)
  | [], [] => some []
  | a :: as, b :: bs => (vzip f as bs).map (fun l => f a b :: l)
  | _, _ => none

/-- rasterizer/backward.py line 84: the suffix sum is declared as
`ti.math.vec3(0.0)` — a fixed 3-component vector. -/
def w_init : List ℚ := [0, 0, 0]

/-- rasterizer/backward.py line 136 (`w_i += feature * alpha * T_i`) as a
shape-checked operation on list vectors. -/
def suffixUpdateChecked (w feature : List ℚ) (alpha T : ℚ) : Option (List ℚ) :=
  vzip (fun a b => a + b) w (feature.map (fun c => c * alpha * T))

/-- rasterizer/backward.py lines 132–133
(`feature * T_i - w_i / (1. - alpha)`) as a shape-checked operation on
list vectors. -/
def alphaGradTermChecked (feature : List ℚ) (T : ℚ) (w : List ℚ) (alpha : ℚ) :
    Option (List ℚ) :=
  vzip (fun a b => a - b) (feature.map (fun c => c * T))
    (w.map (fun c => c / (1 - alpha)))

/-- Concrete density evaluator used for witnesses: constant density 1/2 with
zero derivatives. -/
def pdfgC : PdfGrad := fun _ _ _ => (1/2, vzero2, vzero3)

/-- Concrete feature vector used for witnesses. -/
def featC : Vec3 := fun _ => 1

/-- Concrete per-pixel backward state used for witnesses. -/
def sC : BackwardState :=
  { T_i := 1/2, w_i := vzero3, grad_points := [vzero6],
    grad_point_features := [vzero3] }

/-- Concrete single-primitive kernel input used for witnesses. -/
def inpC : KernelInput :=
  { points := [Gaussian2D.pack vzero2 vzero3 1], point_features := [featC],
    overlap_to_point := [0] }

/-- Concrete three-primitive kernel input used for witnesses. -/
def inpC3 : KernelInput :=
  { points := [Gaussian2D.pack vzero2 vzero3 1,
               Gaussian2D.pack vzero2 vzero3 (1/2),
               Gaussian2D.pack vzero2 vzero3 0],
    point_features := [featC, featC, featC],
    overlap_to_point := [0, 1, 2] }

/-- Concrete backward state with three-primitive gradient buffers, used for
witnesses. -/
def sC3 : BackwardState :=
  { T_i := 1/2, w_i := vzero3, grad_points := [vzero6, vzero6, vzero6],
    grad_point_features := [vzero3, vzero3, vzero3] }

/-- Concrete rasterization stub used for the padding/cropping witness. -/
def rasterC : ℕ × ℕ → List (List Vec3) :=
  fun _ => List.replicate 2 (List.replicate 4 vzero3)

/-!  Helper lemmas. -/

theorem Gaussian2D.unpack_pack (uv : Vec2) (uv_conic : Vec3) (alpha : ℚ) :
    Gaussian2D.unpack (Gaussian2D.pack uv uv_conic alpha) = (uv, uv_conic, alpha) := by
  unfold Gaussian2D.unpack Gaussian2D.pack
  refine Prod.ext ?_ (Prod.ext ?_ ?_)
  · funext i; fin_cases i <;> rfl
  · funext i; fin_cases i <;> rfl
  · rfl

theorem getD_set_self {α : Type} (l : List α) (i : ℕ) (v z : α)
    (h : i < l.length) : (l.set i v).getD i z = v := by
  rw [List.getD_eq_getElem?_getD, List.getElem?_set_eq_of_lt v h, Option.getD_some]

theorem getD_set_ne {α : Type} (l : List α) {i j : ℕ} (h : i ≠ j) (v z : α) :
    (l.set i v).getD j z = l.getD j z := by
  rw [List.getD_eq_getElem?_getD, List.getD_eq_getElem?_getD,
    List.getElem?_set_ne h]

theorem foldl_ext_mem {α β : Type} (f g : α → β → α) (l : List β) (s : α)
    (h : ∀ b ∈ l, ∀ a, f a b = g a b) : l.foldl f s = l.foldl g s := by
  induction l generalizing s with
  | nil => rfl
  | cons b t ih =>
    rw [List.foldl_cons, List.foldl_cons, h b (List.mem_cons_self b t)]
    exact ih _ (fun b' hb' a => h b' (List.mem_cons_of_mem b hb') a)

theorem foldl_filter_of_skip {α β : Type} (f : α → β → α) (p : β → Bool)
    (hf : ∀ b, p b = false → ∀ a, f a b = a) (l : List β) (s : α) :
    l.foldl f s = (l.filter p).foldl f s := by
  induction l generalizing s with
  | nil => rfl
  | cons b t ih =>
    by_cases hb : p b
    · rw [List.foldl_cons, List.filter_cons_of_pos hb, List.foldl_cons]
      exact ih _
    · have hb' : p b = false := by simpa using hb
      rw [List.foldl_cons, List.filter_cons_of_neg (by simp [hb']), hf b hb' s]
      exact ih s

/-- Unfolding of the contributing branch of the per-primitive backward body. -/
theorem processPoint_spec (cfg : Config) (pdfg : PdfGrad) (pc : Vec2)
    (gpf : Vec3) (uv : Vec2) (uv_conic : Vec3) (point_alpha : ℚ)
    (feature : Vec3) (point_offset : ℕ) (s : BackwardState)
    (h : ¬ (point_alpha * (pdfg pc uv uv_conic).1 < cfg.alpha_threshold)) :
    processPoint cfg pdfg pc gpf (Gaussian2D.pack uv uv_conic point_alpha)
        feature point_offset s
      = { T_i := s.T_i /
            (1 - min (point_alpha * (pdfg pc uv uv_conic).1) cfg.clamp_max_alpha)
          w_i := fun i => s.w_i i + feature i
            * min (point_alpha * (pdfg pc uv uv_conic).1) cfg.clamp_max_alpha
            * (s.T_i / (1 - min (point_alpha * (pdfg pc uv uv_conic).1)
                cfg.clamp_max_alpha))
          grad_points := accumAt s.grad_points point_offset
            (fun k => (∑ i, (feature i
                * (s.T_i / (1 - min (point_alpha * (pdfg pc uv uv_conic).1)
                    cfg.clamp_max_alpha))
                - s.w_i i / (1 - min (point_alpha * (pdfg pc uv uv_conic).1)
                    cfg.clamp_max_alpha)) * gpf i)
              * Gaussian2D.pack
                (fun i => point_alpha * (pdfg pc uv uv_conic).2.1 i)
                (fun i => point_alpha * (pdfg pc uv uv_conic).2.2 i)
                (pdfg pc uv uv_conic).1 k) vzero6
          grad_point_features := accumAt s.grad_point_features point_offset
            (fun i => min (point_alpha * (pdfg pc uv uv_conic).1)
                cfg.clamp_max_alpha
              * (s.T_i / (1 - min (point_alpha * (pdfg pc uv uv_conic).1)
                  cfg.clamp_max_alpha)) * gpf i) vzero3 } := by
  simp only [processPoint, Gaussian2D.unpack_pack]
  rw [if_neg h]

/-- Skipping branch of the per-primitive backward body. -/
theorem processPoint_skip (cfg : Config) (pdfg : PdfGrad) (pc : Vec2)
    (gpf : Vec3) (uv : Vec2) (uv_conic : Vec3) (point_alpha : ℚ)
    (feature : Vec3) (point_offset : ℕ) (s : BackwardState)
    (h : point_alpha * (pdfg pc uv uv_conic).1 < cfg.alpha_threshold) :
    processPoint cfg pdfg pc gpf (Gaussian2D.pack uv uv_conic point_alpha)
        feature point_offset s = s := by
  simp only [processPoint, Gaussian2D.unpack_pack]
  rw [if_pos h]

/-!  Claim theorems. -/

/-- C7: the rasterizer configuration record has exactly the four constants
tile_size, clamp_max_alpha, alpha_threshold and saturate_threshold, with
defaults 16 pixels, 0.99, 1/255 and 0.9999; every configuration value is
determined by these four fields. -/
theorem config_four_constants_defaults :
    ({} : Config) = Config.mk 16 (99/100) (1/255) (9999/10000)
    ∧ ∀ c : Config,
        c = Config.mk c.tile_size c.clamp_max_alpha c.alpha_threshold
              c.saturate_threshold :=
  ⟨rfl, fun _ => rfl⟩

/-- C5 counterexample: the Config record performs no validation whatsoever —
a configuration with clamp_max_alpha = 2 ∉ (0,1) is representable and is
accepted unchanged, so the conjunct "the configuration validation enforces
clamp_max_alpha ∈ (0,1)" is false of the code (the frozen dataclass has no
validation logic). -/
theorem config_no_validation_cex :
    (Config.mk 16 2 (1/255) (9999/10000)).clamp_max_alpha = 2
    ∧ ¬ ((Config.mk 16 2 (1/255) (9999/10000)).clamp_max_alpha < 1) :=
  ⟨rfl, by norm_num⟩

/-- C5 (amended): every division by (1 - alpha) in the backward body uses
the clamped alpha, so under the precondition clamp_max_alpha < 1 the
divisor 1 - min(alpha, clamp_max_alpha) is strictly positive for every
alpha; the default configuration satisfies clamp_max_alpha ∈ (0,1); and on
the contributing branch the transmittance un-divide indeed divides by
1 - min(alpha, clamp_max_alpha).  (No configuration validation exists in
the code; the invariant is the caller's responsibility.) -/
theorem division_after_clamp_safe (cfg : Config)
    (h : cfg.clamp_max_alpha < 1) :
    (∀ alpha : ℚ, 0 < 1 - min alpha cfg.clamp_max_alpha)
    ∧ (0 < ({} : Config).clamp_max_alpha ∧ ({} : Config).clamp_max_alpha < 1)
    ∧ ∀ (pdfg : PdfGrad) (pc : Vec2) (gpf : Vec3) (uv : Vec2)
        (uv_conic : Vec3) (point_alpha : ℚ) (feature : Vec3)
        (point_offset : ℕ) (s : BackwardState),
        cfg.alpha_threshold ≤ point_alpha * (pdfg pc uv uv_conic).1 →
        (processPoint cfg pdfg pc gpf (Gaussian2D.pack uv uv_conic point_alpha)
            feature point_offset s).T_i
          = s.T_i / (1 - min (point_alpha * (pdfg pc uv uv_conic).1)
              cfg.clamp_max_alpha) := by
  refine ⟨?_, ⟨by norm_num, by norm_num⟩, ?_⟩
  · intro alpha
    have hm := min_le_right alpha cfg.clamp_max_alpha
    linarith
  · intro pdfg pc gpf uv uv_conic point_alpha feature point_offset s hth
    rw [processPoint_spec cfg pdfg pc gpf uv uv_conic point_alpha feature
      point_offset s (not_lt.mpr hth)]

/-- C5 witness: the hypothesis holds for the default configuration and the
divisor is positive at alpha = 3/4. -/
theorem division_after_clamp_safe_witness :
    ({} : Config).clamp_max_alpha < 1
    ∧ 0 < 1 - min (3/4 : ℚ) ({} : Config).clamp_max_alpha :=
  ⟨by norm_num, (division_after_clamp_safe {} (by norm_num)).1 (3/4)⟩

/-- C1: for a contributing primitive the backward body first un-divides the
running transmittance with the clamped alpha (T_i := T_i / (1 - alpha)),
then computes the scalar alpha gradient as the dot product of
(feature * T_i - w / (1 - alpha)) — with the already-updated T_i and the
not-yet-updated suffix sum w — with the incoming pixel feature gradient,
and then updates the suffix sum as w + feature * alpha * T_i with the
updated T_i: exactly the un-divide / gradient / suffix-update order of the
source. -/
theorem backward_body_order (cfg : Config) (pdfg : PdfGrad) (pc : Vec2)
    (gpf : Vec3) (uv : Vec2) (uv_conic : Vec3) (point_alpha : ℚ)
    (feature : Vec3) (point_offset : ℕ) (s : BackwardState)
    (h : cfg.alpha_threshold ≤ point_alpha * (pdfg pc uv uv_conic).1) :
    (processPoint cfg pdfg pc gpf (Gaussian2D.pack uv uv_conic point_alpha)
        feature point_offset s).T_i
      = s.T_i / (1 - min (point_alpha * (pdfg pc uv uv_conic).1)
          cfg.clamp_max_alpha)
    ∧ (processPoint cfg pdfg pc gpf (Gaussian2D.pack uv uv_conic point_alpha)
        feature point_offset s).w_i
      = (fun i => s.w_i i
          + feature i * min (point_alpha * (pdfg pc uv uv_conic).1)
              cfg.clamp_max_alpha
            * (s.T_i / (1 - min (point_alpha * (pdfg pc uv uv_conic).1)
                cfg.clamp_max_alpha)))
    ∧ (processPoint cfg pdfg pc gpf (Gaussian2D.pack uv uv_conic point_alpha)
        feature point_offset s).grad_points
      = accumAt s.grad_points point_offset
          (fun k => (∑ i, (feature i
              * (s.T_i / (1 - min (point_alpha * (pdfg pc uv uv_conic).1)
                  cfg.clamp_max_alpha))
              - s.w_i i / (1 - min (point_alpha * (pdfg pc uv uv_conic).1)
                  cfg.clamp_max_alpha)) * gpf i)
            * Gaussian2D.pack
              (fun i => point_alpha * (pdfg pc uv uv_conic).2.1 i)
              (fun i => point_alpha * (pdfg pc uv uv_conic).2.2 i)
              (pdfg pc uv uv_conic).1 k) vzero6 := by
  rw [processPoint_spec cfg pdfg pc gpf uv uv_conic point_alpha feature
    point_offset s (not_lt.mpr h)]
  exact ⟨rfl, rfl, rfl⟩

/-- C1 witness: the contributing branch at a concrete input. -/
theorem backward_body_order_witness :
    (({} : Config).alpha_threshold ≤ 1 * (pdfgC vzero2 vzero2 vzero3).1)
    ∧ (processPoint ({} : Config) pdfgC vzero2 featC
        (Gaussian2D.pack vzero2 vzero3 1) featC 0 sC).T_i
      = sC.T_i / (1 - min (1 * (pdfgC vzero2 vzero2 vzero3).1)
          ({} : Config).clamp_max_alpha) :=
  ⟨by norm_num [pdfgC], (backward_body_order ({} : Config) pdfgC vzero2 featC
    vzero2 vzero3 1 featC 0 sC (by norm_num [pdfgC])).1⟩

/-- C2: for a contributing primitive the backward body accumulates (adds to,
never overwrites) the primitive's gradient buffers: the feature gradient
added is alpha * T_i * incoming pixel gradient, the packed shape gradient
added is the scalar alpha gradient times (opacity * d_density/d_mean,
opacity * d_density/d_conic, raw density), and every other buffer entry is
left unchanged. -/
theorem backward_body_accumulates (cfg : Config) (pdfg : PdfGrad) (pc : Vec2)
    (gpf : Vec3) (uv : Vec2) (uv_conic : Vec3) (point_alpha : ℚ)
    (feature : Vec3) (point_offset : ℕ) (s : BackwardState)
    (h : cfg.alpha_threshold ≤ point_alpha * (pdfg pc uv uv_conic).1)
    (h6 : point_offset < s.grad_points.length)
    (h3 : point_offset < s.grad_point_features.length) :
    ((processPoint cfg pdfg pc gpf (Gaussian2D.pack uv uv_conic point_alpha)
        feature point_offset s).grad_point_features.getD point_offset vzero3
      = fun i => s.grad_point_features.getD point_offset vzero3 i
          + min (point_alpha * (pdfg pc uv uv_conic).1) cfg.clamp_max_alpha
            * (s.T_i / (1 - min (point_alpha * (pdfg pc uv uv_conic).1)
                cfg.clamp_max_alpha)) * gpf i)
    ∧ (∀ j, j ≠ point_offset →
        (processPoint cfg pdfg pc gpf (Gaussian2D.pack uv uv_conic point_alpha)
          feature point_offset s).grad_point_features.getD j vzero3
          = s.grad_point_features.getD j vzero3)
    ∧ ((processPoint cfg pdfg pc gpf (Gaussian2D.pack uv uv_conic point_alpha)
        feature point_offset s).grad_points.getD point_offset vzero6
      = fun k => s.grad_points.getD point_offset vzero6 k
          + (∑ i, (feature i
              * (s.T_i / (1 - min (point_alpha * (pdfg pc uv uv_conic).1)
                  cfg.clamp_max_alpha))
              - s.w_i i / (1 - min (point_alpha * (pdfg pc uv uv_conic).1)
                  cfg.clamp_max_alpha)) * gpf i)
            * Gaussian2D.pack
              (fun i => point_alpha * (pdfg pc uv uv_conic).2.1 i)
              (fun i => point_alpha * (pdfg pc uv uv_conic).2.2 i)
              (pdfg pc uv uv_conic).1 k)
    ∧ (∀ j, j ≠ point_offset →
        (processPoint cfg pdfg pc gpf (Gaussian2D.pack uv uv_conic point_alpha)
          feature point_offset s).grad_points.getD j vzero6
          = s.grad_points.getD j vzero6) := by
  rw [processPoint_spec cfg pdfg pc gpf uv uv_conic point_alpha feature
    point_offset s (not_lt.mpr h)]
  refine ⟨?_, ?_, ?_, ?_⟩
  · simp only [accumAt]
    rw [getD_set_self _ _ _ _ h3]
    rfl
  · intro j hj
    simp only [accumAt]
    exact getD_set_ne _ (Ne.symm hj) _ _
  · simp only [accumAt]
    rw [getD_set_self _ _ _ _ h6]
    rfl
  · intro j hj
    simp only [accumAt]
    exact getD_set_ne _ (Ne.symm hj) _ _

/-- C2 witness: the accumulation at a concrete contributing input. -/
theorem backward_body_accumulates_witness :
    (({} : Config).alpha_threshold ≤ 1 * (pdfgC vzero2 vzero2 vzero3).1)
    ∧ ((processPoint ({} : Config) pdfgC vzero2 featC
          (Gaussian2D.pack vzero2 vzero3 1) featC 0 sC).grad_point_features.getD
            0 vzero3
        = fun i => sC.grad_point_features.getD 0 vzero3 i
            + min (1 * (pdfgC vzero2 vzero2 vzero3).1)
                ({} : Config).clamp_max_alpha
              * (sC.T_i / (1 - min (1 * (pdfgC vzero2 vzero2 vzero3).1)
                  ({} : Config).clamp_max_alpha)) * featC i) :=
  ⟨by norm_num [pdfgC],
   (backward_body_accumulates ({} : Config) pdfgC vzero2 featC vzero2 vzero3 1
      featC 0 sC (by norm_num [pdfgC]) (by decide) (by decide)).1⟩

/-- C3: a primitive whose recomputed raw alpha (opacity times density at the
pixel) is strictly below alpha_threshold contributes exactly zero in the
backward body — gradient buffers, T_i and the suffix sum w are all left
unchanged — and is skipped identically by the (spec-modelled) forward
compositing step; both skip tests compare the unclamped alpha against the
same alpha_threshold field of the shared configuration. -/
theorem threshold_skip_zero_contribution (cfg : Config) (pdfg : PdfGrad)
    (pc : Vec2) (gpf : Vec3) (uv : Vec2) (uv_conic : Vec3) (point_alpha : ℚ)
    (feature : Vec3) (point_offset : ℕ) (s : BackwardState)
    (fs : ForwardState)
    (h : point_alpha * (pdfg pc uv uv_conic).1 < cfg.alpha_threshold) :
    processPoint cfg pdfg pc gpf (Gaussian2D.pack uv uv_conic point_alpha)
        feature point_offset s = s
    ∧ forwardPoint cfg pdfg pc uv uv_conic point_alpha feature fs = fs := by
  refine ⟨processPoint_skip cfg pdfg pc gpf uv uv_conic point_alpha feature
    point_offset s h, ?_⟩
  simp only [forwardPoint]
  rw [if_pos h]

/-- C3 witness: a below-threshold primitive at a concrete input. -/
theorem threshold_skip_zero_contribution_witness :
    (0 * (pdfgC vzero2 vzero2 vzero3).1 < ({} : Config).alpha_threshold)
    ∧ processPoint ({} : Config) pdfgC vzero2 featC
        (Gaussian2D.pack vzero2 vzero3 0) featC 0 sC = sC :=
  ⟨by norm_num [pdfgC],
   (threshold_skip_zero_contribution ({} : Config) pdfgC vzero2 featC vzero2
      vzero3 0 featC 0 sC ⟨vzero3, 1⟩ (by norm_num [pdfgC])).1⟩

theorem vzip_isSome_iff (f : ℚ → ℚ → ℚ) :
    ∀ (xs ys : List ℚ), (vzip f xs ys).isSome ↔ xs.length = ys.length
  | [], [] => by simp [vzip]
  | [], _ :: _ => by simp [vzip]
  | _ :: _, [] => by simp [vzip]
  | a :: as, b :: bs => by
    simp [vzip, vzip_isSome_iff f as bs]

/-- C10: the suffix sum is a fixed 3-vector (ti.math.vec3) independent of the
feature size F the kernel was instantiated with, while features are
F-vectors; the suffix-sum update w += feature * alpha * T_i and the
alpha-gradient term feature * T_i - w / (1 - alpha) are shape-consistent
exactly when F = 3. -/
theorem suffix_vec3_shape_iff (F : ℕ) (feature w : List ℚ) (alpha T : ℚ)
    (hw : w.length = 3) (hf : feature.length = F) :
    w_init.length = 3
    ∧ ((suffixUpdateChecked w feature alpha T).isSome ↔ F = 3)
    ∧ ((alphaGradTermChecked feature T w alpha).isSome ↔ F = 3) := by
  refine ⟨rfl, ?_, ?_⟩
  · rw [suffixUpdateChecked, vzip_isSome_iff, List.length_map, hw, hf]
    exact eq_comm
  · rw [alphaGradTermChecked, vzip_isSome_iff, List.length_map,
      List.length_map, hf, hw]

/-- C10 witness: with F = 3 the shape-checked suffix update succeeds. -/
theorem suffix_vec3_shape_iff_witness :
    w_init.length = 3 ∧ (suffixUpdateChecked w_init [1, 2, 3] 1 1).isSome :=
  ⟨rfl, ((suffix_vec3_shape_iff 3 [1, 2, 3] w_init 1 1 rfl rfl).2.1).mpr rfl⟩

theorem walkIndices_eq_reverse_range' (startOff endOff : ℕ)
    (hse : startOff ≤ endOff) :
    walkIndices endOff (endOff - startOff)
      = (List.range' startOff (endOff - startOff)).reverse := by
  apply List.ext_getElem
  · simp [walkIndices]
  · intro i h1 h2
    simp only [walkIndices, List.getElem_map, List.getElem_range,
      List.getElem_reverse, List.getElem_range'_1, List.length_range']
    simp only [walkIndices, List.length_map, List.length_range] at h1
    omega

/-- C4: the backward walk visits the tile range in strictly descending
list-index order — its index sequence is the reverse of the ascending
enumeration of [startOff, endOff) — and every index at or beyond the
pixel's saved last_valid index is skipped with no state change, so the
walk equals the walk over only the contributing indices. -/
theorem backward_walk_order_and_skip (cfg : Config) (pdfg : PdfGrad)
    (inp : KernelInput) (pc : Vec2) (gpf : Vec3)
    (last_point_idx startOff endOff : ℕ) (hse : startOff ≤ endOff)
    (s0 : BackwardState) :
    walkIndices endOff (endOff - startOff)
      = (List.range' startOff (endOff - startOff)).reverse
    ∧ (walkIndices endOff (endOff - startOff)).Pairwise (fun a b => b < a)
    ∧ (∀ i, i ∈ walkIndices endOff (endOff - startOff) ↔
        startOff ≤ i ∧ i < endOff)
    ∧ (∀ i s, last_point_idx ≤ i →
        stepAtIndex cfg pdfg inp pc gpf last_point_idx s i = s)
    ∧ straightWalk cfg pdfg inp pc gpf last_point_idx startOff endOff s0
      = ((walkIndices endOff (endOff - startOff)).filter
          (fun i => decide (i < last_point_idx))).foldl
          (stepAtIndex cfg pdfg inp pc gpf last_point_idx) s0 := by
  have hrev := walkIndices_eq_reverse_range' startOff endOff hse
  refine ⟨hrev, ?_, ?_, ?_, ?_⟩
  · rw [hrev, List.pairwise_reverse]
    exact List.pairwise_lt_range' startOff (endOff - startOff)
  · intro i
    rw [hrev, List.mem_reverse, List.mem_range'_1]
    omega
  · intro i s h
    simp only [stepAtIndex]
    rw [if_pos h]
  · refine foldl_filter_of_skip _ _ (fun b hb a => ?_) _ s0
    have hle : last_point_idx ≤ b := by
      have : ¬ (b < last_point_idx) := by simpa using hb
      omega
    simp only [stepAtIndex]
    rw [if_pos hle]

/-- C4 witness: a concrete walk with one index beyond last_valid. -/
theorem backward_walk_order_and_skip_witness :
    ((0 : ℕ) ≤ 2) ∧ ((1 : ℕ) ≤ 1)
    ∧ stepAtIndex ({} : Config) pdfgC inpC vzero2 featC 1 sC 1 = sC
    ∧ (walkIndices 2 2).Pairwise (fun a b => b < a) :=
  ⟨by decide, by decide,
   (backward_walk_order_and_skip ({} : Config) pdfgC inpC vzero2 featC 1 0 2
      (by decide) sC).2.2.2.1 1 sC (by decide),
   (backward_walk_order_and_skip ({} : Config) pdfgC inpC vzero2 featC 1 0 2
      (by decide) sC).2.1⟩

/-- C9: after the per-pixel backward computation the saved forward state is
overwritten: image_feature is set to the zero feature vector (the kernel's
accum_feature is initialised to zero and never updated), image_alpha is set
to 1 minus the reverse-reconstructed transmittance remaining at the end of
the walk (not the forward accumulated alpha that was read), and
image_last_valid is rewritten with the value read at the start. -/
theorem backward_overwrites_pixel_state (cfg : Config) (pdfg : PdfGrad)
    (inp : KernelInput) (pc : Vec2) (startOff endOff : ℕ)
    (saved : PixelSaved) (gpf : Vec3) (g6 : List Vec6) (g3 : List Vec3) :
    (backwardPixel cfg pdfg inp pc startOff endOff saved gpf g6
        g3).1.image_feature = vzero3
    ∧ (backwardPixel cfg pdfg inp pc startOff endOff saved gpf g6
        g3).1.image_alpha
      = 1 - (straightWalk cfg pdfg inp pc gpf saved.image_last_valid startOff
          endOff ⟨1 - saved.image_alpha, vzero3, g6, g3⟩).T_i
    ∧ (backwardPixel cfg pdfg inp pc startOff endOff saved gpf g6
        g3).1.image_last_valid = saved.image_last_valid :=
  ⟨rfl, rfl, rfl⟩

theorem le_pad (t x : ℕ) (ht : 0 < t) : x ≤ pad t x := by
  unfold pad
  have h1 := Nat.div_add_mod (x + t - 1) t
  have h2 := Nat.mod_lt (x + t - 1) ht
  rw [Nat.mul_comm] at h1
  omega

theorem pad_le_of_dvd (t x m : ℕ) (ht : 0 < t) (hd : t ∣ m) (hx : x ≤ m) :
    pad t x ≤ m := by
  obtain ⟨k, rfl⟩ := hd
  rw [Nat.mul_comm] at hx ⊢
  unfold pad
  have hlt : x + t - 1 < (k + 1) * t := by
    rw [Nat.succ_mul]
    omega
  have hq : (x + t - 1) / t ≤ k :=
    Nat.lt_succ_iff.mp ((Nat.div_lt_iff_lt_mul ht).2 hlt)
  exact Nat.mul_le_mul_right t hq

/-- C8: pad_to_tile returns per dimension the least multiple of the tile
size that is greater than or equal to the requested size, and
render_gaussians renders at the padded size and crops the result back to
the caller's requested image_size (`image[:h, :w]` with
image_size = (w, h)). -/
theorem pad_least_multiple_and_crop (t x : ℕ) (ht : 0 < t)
    (raster : ℕ × ℕ → List (List Vec3)) (image_size : ℕ × ℕ)
    (hrows : (raster (pad_to_tile image_size t)).length
      = (pad_to_tile image_size t).2)
    (hcols : ∀ row ∈ raster (pad_to_tile image_size t),
      row.length = (pad_to_tile image_size t).1) :
    (t ∣ pad t x ∧ x ≤ pad t x ∧ ∀ m, t ∣ m → x ≤ m → pad t x ≤ m)
    ∧ (render_gaussians raster image_size t).length = image_size.2
    ∧ (∀ row ∈ render_gaussians raster image_size t,
        row.length = image_size.1)
    ∧ ∀ y xI, y < image_size.2 → xI < image_size.1 →
        ((render_gaussians raster image_size t).getD y []).getD xI vzero3
          = ((raster (pad_to_tile image_size t)).getD y []).getD xI vzero3 := by
  have hpad2 : (pad_to_tile image_size t).2 = pad t image_size.2 := rfl
  have hpad1 : (pad_to_tile image_size t).1 = pad t image_size.1 := rfl
  refine ⟨⟨by unfold pad; exact dvd_mul_left t _, le_pad t x ht,
    fun m hd hx => pad_le_of_dvd t x m ht hd hx⟩, ?_, ?_, ?_⟩
  · simp only [render_gaussians, List.length_map, List.length_take, hrows,
      hpad2]
    have := le_pad t image_size.2 ht
    omega
  · intro row hrow
    simp only [render_gaussians, List.mem_map] at hrow
    obtain ⟨row', hmem, rfl⟩ := hrow
    have hr := hcols row' (List.take_subset _ _ hmem)
    rw [List.length_take, hr, hpad1]
    have := le_pad t image_size.1 ht
    omega
  · intro y xI hy hx
    have hyi : y < (raster (pad_to_tile image_size t)).length := by
      rw [hrows, hpad2]
      exact lt_of_lt_of_le hy (le_pad t image_size.2 ht)
    simp only [render_gaussians]
    have houter : (List.map (fun row => List.take image_size.1 row)
        (List.take image_size.2 (raster (pad_to_tile image_size t)))).getD y []
        = List.take image_size.1
            ((raster (pad_to_tile image_size t)).getD y []) := by
      rw [List.getD_eq_getElem?_getD, List.getElem?_map,
        List.getElem?_take_of_lt hy, List.getElem?_eq_getElem hyi,
        Option.map_some', Option.getD_some, List.getD_eq_getElem?_getD,
        List.getElem?_eq_getElem hyi, Option.getD_some]
    rw [houter, List.getD_eq_getElem?_getD, List.getD_eq_getElem?_getD,
      List.getElem?_take_of_lt hx, List.getD_eq_getElem?_getD]

/-- C8 witness: tile size 2 and image size (3, 2): the padded size is
(4, 2) and the crop returns a 2-row image. -/
theorem pad_least_multiple_and_crop_witness :
    (0 < 2) ∧ (2 ∣ pad 2 3) ∧ (3 ≤ pad 2 3)
    ∧ (render_gaussians rasterC (3, 2) 2).length = 2 :=
  ⟨by decide,
   (pad_least_multiple_and_crop 2 3 (by decide) rasterC (3, 2) (by decide)
      (by decide)).1.1,
   (pad_least_multiple_and_crop 2 3 (by decide) rasterC (3, 2) (by decide)
      (by decide)).1.2.1,
   (pad_least_multiple_and_crop 2 3 (by decide) rasterC (3, 2) (by decide)
      (by decide)).2.1⟩

theorem range_flatMap_group (A c : ℕ) :
    ∀ n : ℕ, (List.range n).flatMap
        (fun g => (List.range (min A (c - g * A))).map (fun j => g * A + j))
      = List.range (min (n * A) c) := by
  intro n
  induction n with
  | zero => simp
  | succ n ih =>
    rw [List.range_succ, List.flatMap_append, ih]
    by_cases hc : c ≤ n * A
    · have h0 : min A (c - n * A) = 0 := by omega
      have h1 : min (n * A) c = c := by omega
      have h2 : min ((n + 1) * A) c = c := by
        rw [Nat.succ_mul]
        omega
      simp [h0, h1, h2]
    · have h1 : min (n * A) c = n * A := by omega
      have h2 : min ((n + 1) * A) c = n * A + min A (c - n * A) := by
        rw [Nat.succ_mul]
        omega
      rw [h1, h2, List.range_add]
      simp

theorem numPointGroups_mul_ge (A c : ℕ) (hA : 0 < A) :
    c ≤ numPointGroups A c * A := by
  unfold numPointGroups
  have h1 := Nat.div_add_mod (c + (A - 1)) A
  have h2 := Nat.mod_lt (c + (A - 1)) hA
  rw [Nat.mul_comm] at h1
  omega

theorem numPointGroups_mul_lt (A c : ℕ) (hA : 0 < A) :
    numPointGroups A c * A < c + A := by
  unfold numPointGroups
  have h1 := Nat.div_mul_le_self (c + (A - 1)) A
  omega

theorem range_flatMap_pages (A c : ℕ) (hA : 0 < A) :
    (List.range (numPointGroups A c)).flatMap
      (fun g => (List.range (pointGroupSize A c g)).map (fun j => g * A + j))
    = List.range c := by
  have h := range_flatMap_group A c (numPointGroups A c)
  have hceil := numPointGroups_mul_ge A c hA
  unfold pointGroupSize
  rw [h, min_eq_right hceil]

theorem pages_flatMap_eq_walkIndices (endOff A c : ℕ) (hA : 0 < A) :
    (List.range (numPointGroups A c)).flatMap (pageIndices endOff A c)
      = walkIndices endOff c := by
  unfold pageIndices walkIndices
  rw [← range_flatMap_pages A c hA, List.map_flatMap]
  congr 1
  funext g
  rw [List.map_map]
  rfl

theorem sharedSlot_loaded (inp : KernelInput)
    (startOff endOff tileArea g j : ℕ) (hse : startOff ≤ endOff)
    (hj : j < pointGroupSize tileArea (endOff - startOff) g) :
    sharedSlot inp (endOff - g * tileArea) (endOff - g * tileArea - tileArea) j
      = some (pointData inp
          (inp.overlap_to_point.getD (endOff - (g * tileArea + j) - 1) 0)) := by
  unfold pointGroupSize at hj
  have hj1 : j < tileArea := lt_of_lt_of_le hj (min_le_left _ _)
  have hj2 : j < endOff - startOff - g * tileArea :=
    lt_of_lt_of_le hj (min_le_right _ _)
  unfold sharedSlot
  rw [if_pos (by omega)]
  have hidx : endOff - g * tileArea - j - 1
      = endOff - (g * tileArea + j) - 1 := by omega
  rw [hidx]

theorem consumeStep_eq_stepAtIndex (cfg : Config) (pdfg : PdfGrad)
    (inp : KernelInput) (pc : Vec2) (gpf : Vec3) (last_point_idx : ℕ)
    (startOff endOff tileArea g j : ℕ) (hse : startOff ≤ endOff)
    (hj : j < pointGroupSize tileArea (endOff - startOff) g)
    (s : BackwardState) :
    consumeStep cfg pdfg inp pc gpf last_point_idx endOff tileArea g s j
      = stepAtIndex cfg pdfg inp pc gpf last_point_idx s
          (endOff - (g * tileArea + j) - 1) := by
  simp only [consumeStep, stepAtIndex]
  rw [sharedSlot_loaded inp startOff endOff tileArea g j hse hj]
  simp only [Option.getD_some]

/-- C6: the paged traversal is equivalent to a single straight back-to-front
walk: the tile range of length count = endOff - startOff is processed in
ceil(count / tile_area) pages of at most tile_area entries each; the list
indices consumed across all pages are exactly endOff-1, endOff-2, ...,
startOff, each exactly once; every consumed entry's shared-memory slot was
written by the collective page load before consumption; and the paged walk
computes exactly the state of the straight walk. -/
theorem paged_walk_refines_straight (cfg : Config) (pdfg : PdfGrad)
    (inp : KernelInput) (pc : Vec2) (gpf : Vec3)
    (last_point_idx startOff endOff tileArea : ℕ) (hA : 0 < tileArea)
    (hse : startOff ≤ endOff) (s0 : BackwardState) :
    (endOff - startOff
        ≤ numPointGroups tileArea (endOff - startOff) * tileArea
      ∧ numPointGroups tileArea (endOff - startOff) * tileArea
        < endOff - startOff + tileArea)
    ∧ (∀ g, (pageIndices endOff tileArea (endOff - startOff) g).length
        ≤ tileArea)
    ∧ ((List.range (numPointGroups tileArea (endOff - startOff))).flatMap
        (pageIndices endOff tileArea (endOff - startOff))
        = walkIndices endOff (endOff - startOff))
    ∧ (walkIndices endOff (endOff - startOff)).Nodup
    ∧ (∀ g j, j < pointGroupSize tileArea (endOff - startOff) g →
        sharedSlot inp (endOff - g * tileArea)
            (endOff - g * tileArea - tileArea) j
          = some (pointData inp (inp.overlap_to_point.getD
              (endOff - (g * tileArea + j) - 1) 0)))
    ∧ pagedWalk cfg pdfg inp pc gpf last_point_idx startOff endOff tileArea s0
      = straightWalk cfg pdfg inp pc gpf last_point_idx startOff endOff s0 := by
  refine ⟨⟨numPointGroups_mul_ge _ _ hA, numPointGroups_mul_lt _ _ hA⟩, ?_,
    pages_flatMap_eq_walkIndices endOff tileArea (endOff - startOff) hA, ?_,
    fun g j hj => sharedSlot_loaded inp startOff endOff tileArea g j hse hj,
    ?_⟩
  · intro g
    simp only [pageIndices, List.length_map, List.length_range,
      pointGroupSize]
    exact min_le_left _ _
  · rw [walkIndices_eq_reverse_range' startOff endOff hse,
      List.nodup_reverse]
    exact List.nodup_range' startOff (endOff - startOff)
  · simp only [pagedWalk, straightWalk]
    rw [← pages_flatMap_eq_walkIndices endOff tileArea (endOff - startOff) hA,
      List.flatMap_def, List.foldl_flatten, List.foldl_map]
    refine foldl_ext_mem _ _ _ s0 (fun g hg s => ?_)
    rw [pageIndices, List.foldl_map]
    refine foldl_ext_mem _ _ _ s (fun j hj s' => ?_)
    exact consumeStep_eq_stepAtIndex cfg pdfg inp pc gpf last_point_idx
      startOff endOff tileArea g j hse (List.mem_range.mp hj) s'

/-- C6 witness: a two-page traversal of a three-entry tile range computes
the same state as the straight walk. -/
theorem paged_walk_refines_straight_witness :
    (0 < 2) ∧ ((0 : ℕ) ≤ 3)
    ∧ pagedWalk ({} : Config) pdfgC inpC3 vzero2 featC 3 0 3 2 sC3
      = straightWalk ({} : Config) pdfgC inpC3 vzero2 featC 3 0 3 sC3 :=
  ⟨by decide, by decide,
   (paged_walk_refines_straight ({} : Config) pdfgC inpC3 vzero2 featC 3 0 3 2
      (by decide) (by decide) sC3).2.2.2.2.2⟩
